import Mathlib

/-!
Verification development for the radio-data-collection repository.

The IQ-table pipeline (`signal_processor.py`, `radio_basic_toolkit_backup.py`)
is embedded over `ℚ`: an IQ table is a list of `(I, Q)` pairs, mirroring a
NumPy array of shape `(n, 2)`.  The synthesis/preprocessing pipeline of
`signal_processor_backup.py` works over `ℝ` with an explicit IEEE-754
special-value wrapper, and the persistence layer models the relevant
`np.savez_compressed` / `np.load` semantics.
-/

/-! ## IQ table pipeline (`signal_processor.py`) -/

/-- One scalar metadata value (device id, gain, duration, data format). -/
inductive MetaVal where
  | str : String → MetaVal
  | num : ℚ → MetaVal
deriving DecidableEq, Repr

/-- `SignalProcessor.create_iq_array`: build the table from an optional list of
`[I, Q]` pairs (`np.zeros((1000, 2))` when absent) and append the trailing
`[sample_rate, 0]` row when a sample rate is given (`np.vstack`). -/
def createIqArray (iqDataList : Option (List (ℚ × ℚ))) (sample_rate : Option ℚ) :
    List (ℚ × ℚ) :=
  let base := match iqDataList with
    | none => List.replicate 1000 ((0 : ℚ), (0 : ℚ))
    | some l => l
  match sample_rate with
  | some sr => base ++ [(sr, 0)]
  | none => base

/-- The last-row test of `SignalProcessor.process_iq_data`:
`iq_array.shape[0] > 1 and np.all(iq_array[-1, :] == [iq_array[-1, 0], 0])`.
The first component of the comparison is reflexive (`r.1 = r.1`), kept here
verbatim; the short-circuit `and` never indexes an empty table. -/
def annotRowOf (tbl : List (ℚ × ℚ)) : Bool :=
  decide (1 < tbl.length) &&
    (match tbl.getLast? with
     | some r => decide (r.1 = r.1) && decide (r.2 = 0)
     | none => false)

/-- The data rows used by `process_iq_data`: the full table, except that the
last row is dropped when it is recognised as the sample-rate marker. -/
def splitData (tbl : List (ℚ × ℚ)) : List (ℚ × ℚ) :=
  if annotRowOf tbl then tbl.dropLast else tbl

/-- The I column (`iq_array[:, 0]`). -/
def iCol (d : List (ℚ × ℚ)) : List ℚ := d.map Prod.fst

/-- The Q column (`iq_array[:, 1]`). -/
def qCol (d : List (ℚ × ℚ)) : List ℚ := d.map Prod.snd

/-- `np.mean` over a rational list (`sum / length`; NumPy returns NaN on an
empty input — callers below only rely on this value on non-empty lists, and
the empty case is modelled explicitly where the source can reach it). -/
def npMeanQ (xs : List ℚ) : ℚ := xs.sum / xs.length

/-- `np.where(i_components > threshold, 0, i_components)`: every I value
strictly above the threshold is replaced by `0`. -/
def filterI (xs : List ℚ) (t : ℚ) : List ℚ :=
  xs.map (fun x => if t < x then 0 else x)

/-- I components of `SignalProcessor.process_iq_data` (post split). -/
def iCompsA (tbl : List (ℚ × ℚ)) : List ℚ := iCol (splitData tbl)

/-- Q components of `SignalProcessor.process_iq_data` (post split). -/
def qCompsA (tbl : List (ℚ × ℚ)) : List ℚ := qCol (splitData tbl)

/-- `i_mean` of `SignalProcessor.process_iq_data`. -/
def iMeanA (tbl : List (ℚ × ℚ)) : ℚ := npMeanQ (iCompsA tbl)

/-- `filtered_i` of `SignalProcessor.process_iq_data`. -/
def filteredIA (tbl : List (ℚ × ℚ)) : List ℚ := filterI (iCompsA tbl) (iMeanA tbl)

/-! ## Fallback variant (`radio_basic_toolkit_backup.py`, `process_iq_data`)

The fallback drops the last row whenever the table has more than one row
(`iq_array[:-1, ...] if iq_array.shape[0] > 1 else iq_array[:, ...]`),
with no check on the row's Q value. -/

/-- Data rows used by the fallback `process_iq_data`. -/
def splitDataB (tbl : List (ℚ × ℚ)) : List (ℚ × ℚ) :=
  if 1 < tbl.length then tbl.dropLast else tbl

/-- I components of the fallback `process_iq_data`. -/
def iCompsB (tbl : List (ℚ × ℚ)) : List ℚ := iCol (splitDataB tbl)

/-- Q components of the fallback `process_iq_data`. -/
def qCompsB (tbl : List (ℚ × ℚ)) : List ℚ := qCol (splitDataB tbl)

/-- `i_mean` of the fallback `process_iq_data`. -/
def iMeanB (tbl : List (ℚ × ℚ)) : ℚ := npMeanQ (iCompsB tbl)

/-- `filtered_i` of the fallback `process_iq_data`. -/
def filteredIB (tbl : List (ℚ × ℚ)) : List ℚ := filterI (iCompsB tbl) (iMeanB tbl)

/-! ## Claim C3 — threshold filter -/

/-- C3, counterexample.  On the table `[[-3, 5], [-1, 5]]` (no marker row) the
default threshold is the I mean `-2`; the value `-1 > -2` is replaced by `0`,
and `0` strictly exceeds the threshold, refuting «no I value of the output
exceeds the threshold (strict `<=`)». -/
theorem c3_counterexample :
    iMeanA [((-3 : ℚ), 5), (-1, 5)] = -2 ∧
    filteredIA [((-3 : ℚ), 5), (-1, 5)] = [-3, 0] ∧
    ¬ ((filteredIA [((-3 : ℚ), 5), (-1, 5)]).getD 1 0 ≤ -2) := by
  refine ⟨?_, ?_, ?_⟩ <;>
    norm_num [iMeanA, filteredIA, filterI, iCompsA, iCol, splitData, annotRowOf, npMeanQ]

/-- C3, amended.  For every I column and every threshold `t` (in particular
the default `t = i_mean` of the same input), the filter preserves length and
rewrites each entry to `0` when it strictly exceeds `t`, leaving it unchanged
otherwise; hence every output entry is at most `max t 0` (but may exceed a
negative threshold, since the replacement value is `0`). -/
theorem c3_amended (xs : List ℚ) (t : ℚ) :
    (filterI xs t).length = xs.length ∧
    ∀ i, i < xs.length →
      (filterI xs t).getD i 0 = (if t < xs.getD i 0 then 0 else xs.getD i 0) ∧
      (filterI xs t).getD i 0 ≤ max t 0 := by
  constructor
  · simp [filterI]
  · intro i hi
    induction xs generalizing i with
    | nil => simp at hi
    | cons x xs ih =>
      cases i with
      | zero =>
        constructor
        · by_cases h : t < x <;> simp [filterI, h]
        · by_cases h : t < x
          · simp [filterI, h, le_max_right]
          · simpa [filterI, h] using le_max_of_le_left (not_lt.mp h)
      | succ i =>
        have hi' : i < xs.length := by simpa using hi
        simpa [filterI] using ih i hi'

/-- C3, witness for `c3_amended` at the concrete input `xs = [-3, -1]`,
`t = -2` (the default threshold of that column). -/
theorem c3_witness :
    (filterI [(-3 : ℚ), -1] (-2)).length = ([(-3 : ℚ), -1] : List ℚ).length ∧
    (filterI [(-3 : ℚ), -1] (-2)).getD 1 0 ≤ max (-2) 0 :=
  ⟨(c3_amended [(-3 : ℚ), -1] (-2)).1,
   ((c3_amended [(-3 : ℚ), -1] (-2)).2 1 (by decide)).2⟩

/-! ## Claim C5 — annotation-row split -/

/-- C5.  The last row is treated as a sample-rate marker iff the table has
more than one row and the last row's Q entry is `0`; and the concrete table
built from `[[1, 2], [3, 4], [5, 6]]` with sample rate `2.4e6` appended has
4 rows, last row `[2400000, 0]`, and splits back to the original 3 rows. -/
theorem c5_split_annot :
    (∀ (tbl : List (ℚ × ℚ)) (r : ℚ × ℚ), tbl.getLast? = some r →
        (annotRowOf tbl = true ↔ (1 < tbl.length ∧ r.2 = 0))) ∧
    (createIqArray (some [((1 : ℚ), (2 : ℚ)), (3, 4), (5, 6)]) (some 2400000)).length = 4 ∧
    (createIqArray (some [((1 : ℚ), (2 : ℚ)), (3, 4), (5, 6)]) (some 2400000)).getLast?
      = some (2400000, 0) ∧
    splitData (createIqArray (some [((1 : ℚ), (2 : ℚ)), (3, 4), (5, 6)]) (some 2400000))
      = [(1, 2), (3, 4), (5, 6)] := by
  refine ⟨?_, by norm_num [createIqArray], by norm_num [createIqArray], ?_⟩
  · intro tbl r h
    simp [annotRowOf, h]
  · norm_num [createIqArray, splitData, annotRowOf]

/-- C5, witness for the universally quantified part of `c5_split_annot` at the
4-row concrete table: the marker test is positive there. -/
theorem c5_witness :
    annotRowOf [((1 : ℚ), 2), (3, 4), (5, 6), (2400000, 0)] = true ↔
      (1 < ([((1 : ℚ), 2), (3, 4), (5, 6), (2400000, 0)] : List (ℚ × ℚ)).length ∧
        ((2400000 : ℚ), (0 : ℚ)).2 = 0) :=
  c5_split_annot.1 [((1 : ℚ), 2), (3, 4), (5, 6), (2400000, 0)] (2400000, 0) rfl

/-! ## Claim C9 — the two `process_iq_data` variants -/

/-- C9, counterexample.  On `[[1, 1], [2, 2]]` (two rows, last Q ≠ 0) the
primary variant keeps both rows while the fallback drops the last one: the
returned `i_mean`s differ (`3/2` vs `1`) and the filtered I arrays have
different lengths, refuting the claimed equality. -/
theorem c9_counterexample :
    iMeanA [((1 : ℚ), 1), (2, 2)] = 3 / 2 ∧
    iMeanB [((1 : ℚ), 1), (2, 2)] = 1 ∧
    iMeanA [((1 : ℚ), 1), (2, 2)] ≠ iMeanB [((1 : ℚ), 1), (2, 2)] ∧
    (filteredIA [((1 : ℚ), 1), (2, 2)]).length ≠
      (filteredIB [((1 : ℚ), 1), (2, 2)]).length := by
  refine ⟨?_, ?_, ?_, ?_⟩ <;>
    norm_num [iMeanA, iMeanB, filteredIA, filteredIB, filterI, iCompsA, iCompsB,
      iCol, splitData, splitDataB, annotRowOf, npMeanQ]

/-- C9, amended.  The two variants exclude the last row under different
conditions (primary: more than one row and last Q = 0; fallback: more than
one row unconditionally); on any non-empty table in which the fallback's
extra exclusions cannot fire — at most one row, or a last row with Q = 0 —
the two variants return equal `i_mean`, `filtered_i` and `q_components`. -/
theorem c9_amended (tbl : List (ℚ × ℚ)) (_hne : tbl ≠ [])
    (h : tbl.length ≤ 1 ∨ annotRowOf tbl = true) :
    splitData tbl = splitDataB tbl ∧
    iMeanA tbl = iMeanB tbl ∧
    filteredIA tbl = filteredIB tbl ∧
    qCompsA tbl = qCompsB tbl := by
  have hsplit : splitData tbl = splitDataB tbl := by
    rcases h with h | h
    · have h1 : ¬ 1 < tbl.length := by omega
      have h2 : annotRowOf tbl = false := by
        simp [annotRowOf, h1]
      simp [splitData, splitDataB, h1, h2]
    · have h1 : 1 < tbl.length := by
        by_contra hcon
        simp [annotRowOf, hcon] at h
      simp [splitData, splitDataB, h, h1]
  refine ⟨hsplit, ?_, ?_, ?_⟩ <;>
    simp [iMeanA, iMeanB, filteredIA, filteredIB, iCompsA, iCompsB,
      qCompsA, qCompsB, hsplit]

/-- C9, witness for `c9_amended` at `[[1, 2], [3, 0]]` (last Q = 0, so both
variants drop the marker row). -/
theorem c9_witness :
    splitData [((1 : ℚ), 2), (3, 0)] = splitDataB [((1 : ℚ), 2), (3, 0)] ∧
    iMeanA [((1 : ℚ), 2), (3, 0)] = iMeanB [((1 : ℚ), 2), (3, 0)] ∧
    filteredIA [((1 : ℚ), 2), (3, 0)] = filteredIB [((1 : ℚ), 2), (3, 0)] ∧
    qCompsA [((1 : ℚ), 2), (3, 0)] = qCompsB [((1 : ℚ), 2), (3, 0)] :=
  c9_amended [((1 : ℚ), 2), (3, 0)] (by simp) (Or.inr (by norm_num [annotRowOf]))

/-! ## Persistence (`signal_processor_backup.py`, `save_signal_data` / `load_signal_data`)

`save_signal_data` writes a compressed NumPy container via
`np.savez_compressed(file_path, data=…, sample_rate=…, center_freq=…,
timestamp=…, metadata=…)`; `load_signal_data` reads it back with
`np.load(file_path)` and returns `None` on any exception.  Two pieces of
NumPy semantics are part of the model:

* `np.savez_compressed` appends the extension `".npz"` to the target name
  unless it is already present, while `np.load` opens exactly the given path;
* `np.load` defaults to `allow_pickle=False` and raises `ValueError` when an
  object-dtype entry (here: the pickled `metadata` dict) is accessed.  A
  numeric scalar entry converts with `float(...)`; converting a non-scalar
  entry raises, which the caller's `except` turns into `None`. -/

/-- One entry of a saved `.npz` container: a numeric array, a 0-d numeric
scalar, or a 0-d object array holding a pickled Python dict. -/
inductive Entry (α : Type) where
  | arr : List α → Entry α
  | scalar : ℚ → Entry α
  | obj : List (String × MetaVal) → Entry α
deriving DecidableEq

/-- The `SignalData` dataclass: samples plus acquisition parameters.  The
sample payload type is a parameter (`save`/`load` never inspect it); the
theorems instantiate it with IQ pairs `ℚ × ℚ`. -/
structure SignalData (α : Type) where
  data : List α
  sample_rate : ℚ
  center_freq : ℚ
  timestamp : ℚ
  metadata : List (String × MetaVal)
deriving DecidableEq

/-- A saved container: named entries in write order. -/
def Container (α : Type) : Type := List (String × Entry α)

/-- The file system as a map from path names to stored containers. -/
def FS (α : Type) : Type := String → Option (Container α)

/-- Python `file_path.endswith(".npz")`. -/
def endsWithNpz (s : String) : Bool := (".npz" : String).data.isSuffixOf s.data

/-- The name `np.savez_compressed` actually writes to: the given path, with
`".npz"` appended when missing. -/
def npzName (s : String) : String := if endsWithNpz s then s else s ++ ".npz"

/-- Default of the `allow_pickle` argument of `np.load` (NumPy ≥ 1.16.3);
`load_signal_data` calls `np.load(file_path)` without overriding it. -/
def npLoadAllowPickle : Bool := false

/-- Key lookup in a container (`npz_file['key']`, `'key' in npz_file`). -/
def getEntry {α : Type} (c : Container α) (k : String) : Option (Entry α) :=
  match c with
  | [] => none
  | (k', e) :: rest => if k' = k then some e else getEntry rest k

/-- `SignalProcessor.save_signal_data`: writes the five named fields as one
container at `npzName path`; `metadata` (a Python dict) is stored as a 0-d
object array. -/
def saveSignalData {α : Type} (fs : FS α) (sd : SignalData α) (path : String) : FS α :=
  fun p =>
    if p = npzName path then
      some [("data", Entry.arr sd.data),
            ("sample_rate", Entry.scalar sd.sample_rate),
            ("center_freq", Entry.scalar sd.center_freq),
            ("timestamp", Entry.scalar sd.timestamp),
            ("metadata", Entry.obj sd.metadata)]
    else fs p

/-- `SignalProcessor.load_signal_data`: opens exactly `path` (absent file →
`FileNotFoundError` → `None`), then reads `data`, `float(sample_rate)`,
`float(center_freq)`, `float(timestamp)`, and `metadata.item() if 'metadata'
in data else {}`.  A missing key (`KeyError`), a non-scalar argument to
`float` (an `Entry.arr` holds IQ pairs, so its NumPy size is `0` or `2n`,
never the size `1` that `float` accepts, and an object entry must be
unpickled first), or unpickling an object entry with `allow_pickle=False`
(`ValueError`) all land in the `except` branch, which returns `None`.

Model boundary: a *present* `data` entry that is not an array (a 0-d
numeric scalar) would be accepted by NumPy itself — `data['data']` just
returns the 0-d array, producing a record whose `data` field is not a
sample list — and cannot be represented in `SignalData`; the catch-all
branch maps it to `none`, and no theorem below quantifies over that case.
For containers with a *missing* required key the result `None` agrees with
NumPy on every entry shape, because the `KeyError` (or an earlier raising
access) is swallowed into the same `None`. -/
def loadSignalData {α : Type} (fs : FS α) (path : String) : Option (SignalData α) :=
  match fs path with
  | none => none
  | some c =>
    match getEntry c "data" with
    | some (Entry.arr d) =>
      match getEntry c "sample_rate" with
      | some (Entry.scalar sr) =>
        match getEntry c "center_freq" with
        | some (Entry.scalar cf) =>
          match getEntry c "timestamp" with
          | some (Entry.scalar ts) =>
            match getEntry c "metadata" with
            | none => some ⟨d, sr, cf, ts, []⟩
            | some (Entry.obj m) =>
              if npLoadAllowPickle then some ⟨d, sr, cf, ts, m⟩ else none
            | some _ => none
          | _ => none
        | _ => none
      | _ => none
    | _ => none

/-- The empty file system. -/
def fsEmpty : FS (ℚ × ℚ) := fun _ => none

/-- A concrete record: one IQ sample, `sample_rate = 2.4e6`,
`center_freq = 98.7e6`, `timestamp = 0`, metadata `{'device_id': 'rtl-sdr'}`. -/
def rec0 : SignalData (ℚ × ℚ) :=
  ⟨[(1, 2)], 2400000, 98700000, 0, [("device_id", MetaVal.str "rtl-sdr")]⟩

/-! ## Claim C1 — persistence round trip -/

/-- C1.  The round trip fails on every path: saving `rec0` at `"sig.npz"` and
loading the same path yields `None` (reading the pickled `metadata` entry
with `allow_pickle=False` raises, and the `except` swallows it); saving at
`"sig"` writes to `"sig.npz"`, so loading `"sig"` hits a missing file and
also yields `None` — never a record equal to the original. -/
theorem c1_roundtrip_fails :
    loadSignalData (saveSignalData fsEmpty rec0 "sig.npz") "sig.npz" = none ∧
    loadSignalData (saveSignalData fsEmpty rec0 "sig") "sig" = none ∧
    (saveSignalData fsEmpty rec0 "sig" "sig.npz").isSome = true :=
  ⟨rfl, rfl, rfl⟩

/-! ## Claim C8 — load error handling -/

/-- A container whose `metadata` entry is absent but whose four numeric
fields are present and well formed. -/
def fsNoMeta : FS (ℚ × ℚ) := fun p =>
  if p = "c.npz" then
    some [("data", Entry.arr [(1, 2)]),
          ("sample_rate", Entry.scalar 2400000),
          ("center_freq", Entry.scalar 98700000),
          ("timestamp", Entry.scalar 0)]
  else none

/-- C8, counterexample.  Loading a container in which the required `metadata`
field is missing does not fail: `load_signal_data` silently substitutes an
empty metadata mapping and returns a record, refuting «fails … when required
fields are missing». -/
theorem c8_counterexample :
    loadSignalData fsNoMeta "c.npz" =
      some ⟨[((1 : ℚ), (2 : ℚ))], 2400000, 98700000, 0, []⟩ := by
  rfl

/-- C8, amended.  Loading from an absent path returns the failure value
`None` (no crash, no substituted record); a container missing any of the
`data`, `sample_rate`, `center_freq` or `timestamp` fields also loads as
`None`, as does one whose `sample_rate`, `center_freq` or `timestamp` entry
is not a numeric scalar (a pair-array or pickled-object entry there makes
`float()`/unpickling raise) or whose `metadata` entry is a pickled object
(`allow_pickle=False`) — the not-found and all corrupt cases are conflated
into the same `None`; but a missing `metadata` field is silently defaulted
to an empty mapping rather than reported as corrupt. -/
theorem c8_amended (fs : FS (ℚ × ℚ)) (path : String) :
    (fs path = none → loadSignalData fs path = none) ∧
    (∀ c, fs path = some c →
      (getEntry c "data" = none ∨ getEntry c "sample_rate" = none ∨
        getEntry c "center_freq" = none ∨ getEntry c "timestamp" = none) →
      loadSignalData fs path = none) ∧
    (∀ c d e, fs path = some c →
      getEntry c "data" = some (Entry.arr d) →
      getEntry c "sample_rate" = some e → (∀ q, e ≠ Entry.scalar q) →
      loadSignalData fs path = none) ∧
    (∀ c d sr e, fs path = some c →
      getEntry c "data" = some (Entry.arr d) →
      getEntry c "sample_rate" = some (Entry.scalar sr) →
      getEntry c "center_freq" = some e → (∀ q, e ≠ Entry.scalar q) →
      loadSignalData fs path = none) ∧
    (∀ c d sr cf e, fs path = some c →
      getEntry c "data" = some (Entry.arr d) →
      getEntry c "sample_rate" = some (Entry.scalar sr) →
      getEntry c "center_freq" = some (Entry.scalar cf) →
      getEntry c "timestamp" = some e → (∀ q, e ≠ Entry.scalar q) →
      loadSignalData fs path = none) ∧
    (∀ c d sr cf ts m, fs path = some c →
      getEntry c "data" = some (Entry.arr d) →
      getEntry c "sample_rate" = some (Entry.scalar sr) →
      getEntry c "center_freq" = some (Entry.scalar cf) →
      getEntry c "timestamp" = some (Entry.scalar ts) →
      getEntry c "metadata" = some (Entry.obj m) →
      loadSignalData fs path = none) ∧
    (∀ c d sr cf ts, fs path = some c →
      getEntry c "data" = some (Entry.arr d) →
      getEntry c "sample_rate" = some (Entry.scalar sr) →
      getEntry c "center_freq" = some (Entry.scalar cf) →
      getEntry c "timestamp" = some (Entry.scalar ts) →
      getEntry c "metadata" = none →
      loadSignalData fs path = some ⟨d, sr, cf, ts, []⟩) := by
  refine ⟨?_, ?_, ?_, ?_, ?_, ?_, ?_⟩
  · intro h; simp [loadSignalData, h]
  · intro c hc h
    rcases h with h | h | h | h
    · simp [loadSignalData, hc, h]
    · cases hd : getEntry c "data" with
      | none => simp [loadSignalData, hc, hd]
      | some e => cases e <;> simp [loadSignalData, hc, hd, h]
    · cases hd : getEntry c "data" with
      | none => simp [loadSignalData, hc, hd]
      | some e =>
        cases e <;> try simp [loadSignalData, hc, hd]
        case arr d =>
          cases hs : getEntry c "sample_rate" with
          | none => simp [loadSignalData, hc, hd, hs]
          | some e' => cases e' <;> simp [loadSignalData, hc, hd, hs, h]
    · cases hd : getEntry c "data" with
      | none => simp [loadSignalData, hc, hd]
      | some e =>
        cases e <;> try simp [loadSignalData, hc, hd]
        case arr d =>
          cases hs : getEntry c "sample_rate" with
          | none => simp [loadSignalData, hc, hd, hs]
          | some e' =>
            cases e' <;> try simp [loadSignalData, hc, hd, hs]
            case scalar sr =>
              cases hf : getEntry c "center_freq" with
              | none => simp [loadSignalData, hc, hd, hs, hf]
              | some e'' => cases e'' <;> simp [loadSignalData, hc, hd, hs, hf, h]
  · intro c d e hc hd hse hne
    cases e with
    | arr l => simp [loadSignalData, hc, hd, hse]
    | scalar q => exact absurd rfl (hne q)
    | obj m => simp [loadSignalData, hc, hd, hse]
  · intro c d sr e hc hd hs hfe hne
    cases e with
    | arr l => simp [loadSignalData, hc, hd, hs, hfe]
    | scalar q => exact absurd rfl (hne q)
    | obj m => simp [loadSignalData, hc, hd, hs, hfe]
  · intro c d sr cf e hc hd hs hf hte hne
    cases e with
    | arr l => simp [loadSignalData, hc, hd, hs, hf, hte]
    | scalar q => exact absurd rfl (hne q)
    | obj m => simp [loadSignalData, hc, hd, hs, hf, hte]
  · intro c d sr cf ts m hc hd hs hf ht hm
    simp [loadSignalData, hc, hd, hs, hf, ht, hm, npLoadAllowPickle]
  · intro c d sr cf ts hc hd hs hf ht hm
    simp [loadSignalData, hc, hd, hs, hf, ht, hm]

/-- C8, witness for `c8_amended`: at the empty file system and path
`"nope.npz"`, the absent-container clause gives `None`. -/
theorem c8_witness : loadSignalData fsEmpty "nope.npz" = none :=
  (c8_amended fsEmpty "nope.npz").1 rfl

/-! ## Synthesis and preprocessing (`signal_processor_backup.py`)

`_simulate_signal_acquisition` draws `int(sample_rate * duration)` complex
noise samples (the generator is a pluggable strategy, modelled as a function
`ℕ → ℝ × ℝ` of the draw index); `_preprocess_signal` normalizes by the
maximum magnitude and applies a centred moving-average convolution.  NumPy
float semantics is modelled explicitly: dividing the all-zero buffer by its
zero maximum produces IEEE-754 NaN values with only a warning — it does
not raise — while `np.max` of an empty array raises `ValueError`, which the
`except` branch of `_preprocess_signal` turns into «return the input». -/

/-- An IEEE-754 double as produced by NumPy arithmetic: a finite real, NaN,
or a signed infinity. -/
inductive RF where
  | num : ℝ → RF
  | nan : RF
  | pinf : RF
  | ninf : RF

noncomputable section

/-- IEEE addition on `RF` (NaN propagates, opposite infinities give NaN). -/
def RF.add : RF → RF → RF
  | RF.nan, _ => RF.nan
  | _, RF.nan => RF.nan
  | RF.num a, RF.num b => RF.num (a + b)
  | RF.pinf, RF.ninf => RF.nan
  | RF.ninf, RF.pinf => RF.nan
  | RF.pinf, _ => RF.pinf
  | _, RF.pinf => RF.pinf
  | RF.ninf, _ => RF.ninf
  | _, RF.ninf => RF.ninf

/-- IEEE multiplication on `RF` (NaN propagates, `0 * ±∞ = NaN`). -/
def RF.mul : RF → RF → RF
  | RF.nan, _ => RF.nan
  | _, RF.nan => RF.nan
  | RF.num a, RF.num b => RF.num (a * b)
  | RF.pinf, RF.num b =>
      if b = 0 then RF.nan else if 0 < b then RF.pinf else RF.ninf
  | RF.ninf, RF.num b =>
      if b = 0 then RF.nan else if 0 < b then RF.ninf else RF.pinf
  | RF.num a, RF.pinf =>
      if a = 0 then RF.nan else if 0 < a then RF.pinf else RF.ninf
  | RF.num a, RF.ninf =>
      if a = 0 then RF.nan else if 0 < a then RF.ninf else RF.pinf
  | RF.pinf, RF.pinf => RF.pinf
  | RF.pinf, RF.ninf => RF.ninf
  | RF.ninf, RF.pinf => RF.ninf
  | RF.ninf, RF.ninf => RF.pinf

/-- IEEE division of a finite real by a finite real: `0/0 = NaN`,
`x/0 = ±∞` for `x ≠ 0`, ordinary quotient otherwise. -/
def fdiv (x m : ℝ) : RF :=
  if m = 0 then (if x = 0 then RF.nan else if 0 < x then RF.pinf else RF.ninf)
  else RF.num (x / m)

/-- `np.abs` of one complex sample. -/
def cAbs (p : ℝ × ℝ) : ℝ := Real.sqrt (p.1 ^ 2 + p.2 ^ 2)

/-- `np.max` over a real list; raises `ValueError` on an empty array. -/
def npMaxList : List ℝ → Except Unit ℝ
  | [] => Except.error ()
  | x :: xs => Except.ok (xs.foldl max x)

/-- `signal / m` elementwise (real and imaginary parts separately, as NumPy
divides a complex array by a real scalar). -/
def normalizeWith (s : List (ℝ × ℝ)) (m : ℝ) : List (RF × RF) :=
  s.map (fun p => (fdiv p.1 m, fdiv p.2 m))

/-- One output point of the full linear convolution of `xs` with the real
kernel `k`: the sum of `xs[j] * k[i - j]` over the valid overlap. -/
def convFullAt (xs : List (RF × RF)) (k : List ℝ) (i : ℕ) : RF × RF :=
  (List.range xs.length).foldl
    (fun acc j =>
      if j ≤ i ∧ i - j < k.length then
        (RF.add acc.1 (RF.mul (xs.getD j (RF.num 0, RF.num 0)).1 (RF.num (k.getD (i - j) 0))),
         RF.add acc.2 (RF.mul (xs.getD j (RF.num 0, RF.num 0)).2 (RF.num (k.getD (i - j) 0))))
      else acc)
    (RF.num 0, RF.num 0)

/-- `np.convolve(xs, k, mode='same')` for `len(xs) ≥ len(k)`: the centred
window of the full convolution, same length as `xs`. -/
def convSame (xs : List (RF × RF)) (k : List ℝ) : List (RF × RF) :=
  (List.range xs.length).map (fun n => convFullAt xs k (n + (k.length - 1) / 2))

/-- `np.ones(w) / w`. -/
def movingKernel (w : ℕ) : List ℝ := List.replicate w (1 / (w : ℝ))

/-- The two non-raising steps of the `try` block of `_preprocess_signal`,
given the maximum magnitude `m`: divide by `m`, then smooth with a moving
average of window `min(100, len(signal) // 10)` when that window exceeds 1
(`signal_normalized` has the same length as `signal`). -/
def preprocessCore (s : List (ℝ × ℝ)) (m : ℝ) : List (RF × RF) :=
  if 1 < min 100 (s.length / 10) then
    convSame (normalizeWith s m) (movingKernel (min 100 (s.length / 10)))
  else normalizeWith s m

/-- The body of the `try` block of `_preprocess_signal`:
`np.max(np.abs(signal))` is the only raising step (`ValueError` on an empty
buffer); its result feeds normalization and smoothing. -/
def preprocessInner (s : List (ℝ × ℝ)) : Except Unit (List (RF × RF)) :=
  (npMaxList (s.map cAbs)).map (preprocessCore s)

/-- Embed an untouched input sample into the result type of preprocessing. -/
def embedRF (p : ℝ × ℝ) : RF × RF := (RF.num p.1, RF.num p.2)

/-- `_preprocess_signal`: on any exception inside the `try` block the
function returns its input buffer unchanged. -/
def preprocessSignal (s : List (ℝ × ℝ)) : List (RF × RF) :=
  match preprocessInner s with
  | Except.ok r => r
  | Except.error _ => s.map embedRF

/-- The configuration snapshot consumed by `SignalProcessor` (keys
`sample_rate`, `center_freq`, `device_id`, `gain`). -/
structure RadioConfig where
  sample_rate : ℚ
  center_freq : ℚ
  device_id : String
  gain : MetaVal

/-- Python `int(...)` applied to the real product: truncation toward zero. -/
def ratTrunc (q : ℚ) : ℤ := if q < 0 then -(Int.floor (-q)) else Int.floor q

/-- `SignalProcessor._simulate_signal_acquisition`:
`num_samples = int(sample_rate * duration)`; a negative count makes
`np.random.normal` raise `ValueError` (caught → `None`); otherwise the
requested number of complex noise samples is drawn from `g`. -/
def simulateAcq (cfg : RadioConfig) (g : ℕ → ℝ × ℝ) (duration : ℚ) :
    Option (List (ℝ × ℝ)) :=
  let n := ratTrunc (cfg.sample_rate * duration)
  if n < 0 then none else some ((List.range n.toNat).map g)

/-- `SignalProcessor.process_signal`: acquire, preprocess, and wrap the
buffer with sample rate, centre frequency, timestamp `t` (`time.time()`)
and the metadata dict; returns `None` when acquisition fails. -/
def processSignal (cfg : RadioConfig) (g : ℕ → ℝ × ℝ) (t : ℚ) (duration : ℚ) :
    Option (SignalData (RF × RF)) :=
  match simulateAcq cfg g duration with
  | none => none
  | some sig =>
      some ⟨preprocessSignal sig, cfg.sample_rate, cfg.center_freq, t,
        [("device_id", MetaVal.str cfg.device_id), ("gain", cfg.gain),
         ("duration", MetaVal.num duration), ("data_type", MetaVal.str "complex64")]⟩

end

/-- Both branches of the smoothing step preserve the buffer length. -/
theorem preprocessCore_length (s : List (ℝ × ℝ)) (m : ℝ) :
    (preprocessCore s m).length = s.length := by
  unfold preprocessCore
  split
  · simp [convSame, normalizeWith]
  · simp [normalizeWith]

/-- A successful pass through the `try` block preserves the buffer length. -/
theorem preprocessInner_ok_length {s : List (ℝ × ℝ)} {r : List (RF × RF)}
    (h : preprocessInner s = Except.ok r) : r.length = s.length := by
  unfold preprocessInner at h
  cases hm : npMaxList (s.map cAbs) with
  | error e => rw [hm] at h; simp [Except.map] at h
  | ok m =>
    rw [hm] at h
    simp only [Except.map] at h
    injection h with h2
    subst h2
    exact preprocessCore_length s m

/-- Preprocessing preserves the buffer length on every path. -/
theorem preprocessSignal_length (s : List (ℝ × ℝ)) :
    (preprocessSignal s).length = s.length := by
  unfold preprocessSignal
  cases h : preprocessInner s with
  | error e => simp
  | ok r => simpa using preprocessInner_ok_length h

/-- The configuration used by the concrete scenarios:
`sample_rate = 2.4e6`, `center_freq = 98.7e6`. -/
def cfg0 : RadioConfig := ⟨2400000, 98700000, "rtl-sdr", MetaVal.str "auto"⟩

/-- A degenerate noise source: every draw is the zero sample. -/
def gZero : ℕ → ℝ × ℝ := fun _ => (0, 0)

/-- Evaluation of `process_signal` at duration `0`: acquisition yields
`int(2.4e6 * 0) = 0` samples, preprocessing of the empty buffer hits the
`except` branch, and a record holding an empty sample buffer is returned
as a success. -/
theorem processSignal_zero_eval :
    processSignal cfg0 gZero 0 0 =
      some ⟨[], 2400000, 98700000, 0,
        [("device_id", MetaVal.str "rtl-sdr"), ("gain", MetaVal.str "auto"),
         ("duration", MetaVal.num 0), ("data_type", MetaVal.str "complex64")]⟩ := by
  simp [processSignal, simulateAcq, ratTrunc, cfg0, preprocessSignal,
    preprocessInner, npMaxList, Except.map]

/-! ## Claim C2 — sample count and the non-empty invariant -/

/-- C2, counterexample.  At duration `0`, `process_signal` returns a record
(not a failure) whose sample buffer is empty: `numSamples = 0 ≤ 0` does not
fail with `AcquisitionError`, and the successful record has
`len(samples) = 0`, refuting both halves of the claim. -/
theorem c2_counterexample :
    (processSignal cfg0 gZero 0 0).isSome = true ∧
    (processSignal cfg0 gZero 0 0).map (fun r => r.data.length) = some 0 := by
  rw [processSignal_zero_eval]
  exact ⟨rfl, rfl⟩

/-- C2, amended.  `numSamples = int(sampleRate * durationSeconds)`
(truncation toward zero, not rounding); only a strictly negative count makes
acquisition fail — `process_signal` then returns the failure value `None`
(there is no `AcquisitionError` value) — and every record returned as
successful has `len(samples) = numSamples`, which is `0` (an empty record,
returned as a success) whenever `numSamples = 0`. -/
theorem c2_amended (cfg : RadioConfig) (g : ℕ → ℝ × ℝ) (t dur : ℚ) :
    (ratTrunc (cfg.sample_rate * dur) < 0 → processSignal cfg g t dur = none) ∧
    (0 ≤ ratTrunc (cfg.sample_rate * dur) →
      ∃ rec, processSignal cfg g t dur = some rec ∧
        rec.data.length = (ratTrunc (cfg.sample_rate * dur)).toNat) := by
  constructor
  · intro h
    simp [processSignal, simulateAcq, h]
  · intro h
    have hn : ¬ ratTrunc (cfg.sample_rate * dur) < 0 := not_lt.mpr h
    refine ⟨⟨preprocessSignal
        ((List.range (ratTrunc (cfg.sample_rate * dur)).toNat).map g),
      cfg.sample_rate, cfg.center_freq, t,
      [("device_id", MetaVal.str cfg.device_id), ("gain", cfg.gain),
       ("duration", MetaVal.num dur), ("data_type", MetaVal.str "complex64")]⟩,
      ?_, ?_⟩
    · simp [processSignal, simulateAcq, hn]
    · simp [preprocessSignal_length]

/-- C2, witness for `c2_amended` at duration `-1`: the truncated count is
negative and `process_signal` fails with `None`. -/
theorem c2_witness : processSignal cfg0 gZero 0 (-1) = none :=
  (c2_amended cfg0 gZero 0 (-1)).1 (by norm_num [ratTrunc, cfg0])

/-! ## Claim C10 — preprocessing exception fallback -/

/-- C10.  When the `try` block of `_preprocess_signal` raises, the `except`
branch returns the input buffer unchanged; this is reachable — the empty
buffer makes `np.max` raise — and `process_signal` then wraps the raw,
never-normalized, never-smoothed buffer in a record returned as a success,
with no failure indication. -/
theorem c10_preprocess_fallback :
    (∀ (s : List (ℝ × ℝ)) (e : Unit), preprocessInner s = Except.error e →
        preprocessSignal s = s.map embedRF) ∧
    preprocessInner ([] : List (ℝ × ℝ)) = Except.error () ∧
    (processSignal cfg0 gZero 0 0).map (fun r => r.data) = some [] := by
  refine ⟨?_, rfl, ?_⟩
  · intro s e h
    simp [preprocessSignal, h]
  · rw [processSignal_zero_eval]
    rfl

/-- C10, witness for `c10_preprocess_fallback` at the empty buffer, the
input on which the `try` block actually raises. -/
theorem c10_witness : preprocessSignal ([] : List (ℝ × ℝ)) = [] :=
  c10_preprocess_fallback.1 [] () c10_preprocess_fallback.2.1

/-! ## Claim C4 — normalization -/

/-- Every element of a list is bounded by a `foldl max` over it. -/
theorem le_foldl_max (xs : List ℝ) (a : ℝ) :
    a ≤ xs.foldl max a ∧ ∀ x ∈ xs, x ≤ xs.foldl max a := by
  induction xs generalizing a with
  | nil => simp
  | cons y ys ih =>
    simp only [List.foldl_cons]
    refine ⟨le_trans (le_max_left a y) (ih (max a y)).1, ?_⟩
    intro x hx
    rcases List.mem_cons.mp hx with h | h
    · subst h
      exact le_trans (le_max_right a x) (ih (max a x)).1
    · exact (ih (max a y)).2 x h

/-- A `foldl max` is the seed or one of the list elements. -/
theorem foldl_max_mem (xs : List ℝ) (a : ℝ) :
    xs.foldl max a = a ∨ xs.foldl max a ∈ xs := by
  induction xs generalizing a with
  | nil => simp
  | cons y ys ih =>
    simp only [List.foldl_cons]
    rcases ih (max a y) with h | h
    · rcases max_choice a y with hm | hm <;>
        (rw [hm] at h ⊢; rw [h]; simp)
    · exact Or.inr (List.mem_cons_of_mem y h)

/-- Specification of `np.max` on a non-empty list: the result is attained
and is an upper bound. -/
theorem npMaxList_ok_spec {l : List ℝ} {m : ℝ} (h : npMaxList l = Except.ok m) :
    m ∈ l ∧ ∀ x ∈ l, x ≤ m := by
  cases l with
  | nil => simp [npMaxList] at h
  | cons x xs =>
    simp only [npMaxList] at h
    injection h with h2
    subst h2
    constructor
    · rcases foldl_max_mem xs x with h | h
      · rw [h]
        exact List.mem_cons_self x xs
      · exact List.mem_cons_of_mem x h
    · intro y hy
      rcases List.mem_cons.mp hy with h | h
      · exact h ▸ (le_foldl_max xs x).1
      · exact (le_foldl_max xs x).2 y h

/-- Dividing by a positive constant commutes with `foldl max`. -/
theorem foldl_max_map_div (xs : List ℝ) (a m : ℝ) (hm : 0 < m) :
    (xs.map (fun x => x / m)).foldl max (a / m) = (xs.foldl max a) / m := by
  induction xs generalizing a with
  | nil => rfl
  | cons y ys ih =>
    simp only [List.map_cons, List.foldl_cons, max_div_div_right hm.le]
    exact ih (max a y)

/-- Magnitudes scale with division by a positive constant. -/
theorem cAbs_div (p : ℝ × ℝ) (m : ℝ) (hm : 0 < m) :
    cAbs (p.1 / m, p.2 / m) = cAbs p / m := by
  unfold cAbs
  have h1 : (p.1 / m) ^ 2 + (p.2 / m) ^ 2 = (p.1 ^ 2 + p.2 ^ 2) * (m ^ 2)⁻¹ := by
    field_simp
  rw [h1, Real.sqrt_mul (by positivity), Real.sqrt_inv,
    Real.sqrt_sq hm.le, div_eq_mul_inv]

/-- A zero magnitude forces both components to vanish. -/
theorem cAbs_eq_zero {p : ℝ × ℝ} (h : cAbs p = 0) : p.1 = 0 ∧ p.2 = 0 := by
  unfold cAbs at h
  have hle : p.1 ^ 2 + p.2 ^ 2 ≤ 0 := Real.sqrt_eq_zero'.mp h
  constructor
  · have h1 : p.1 ^ 2 = 0 :=
      le_antisymm (by nlinarith [sq_nonneg p.2]) (sq_nonneg p.1)
    exact (pow_eq_zero_iff (by norm_num : (2 : ℕ) ≠ 0)).mp h1
  · have h2 : p.2 ^ 2 = 0 :=
      le_antisymm (by nlinarith [sq_nonneg p.1]) (sq_nonneg p.2)
    exact (pow_eq_zero_iff (by norm_num : (2 : ℕ) ≠ 0)).mp h2

/-- C4, counterexample.  On the all-zero one-sample buffer the maximum
magnitude is exactly `0`, and normalization is *not* skipped: the buffer is
divided by zero, `0.0/0.0` produces NaN (NumPy emits a warning, not an
exception, so the `except` branch does not restore the input), and the
`try` block succeeds with a NaN sample instead of the claimed no-op. -/
theorem c4_counterexample :
    preprocessInner [((0 : ℝ), (0 : ℝ))] = Except.ok [(RF.nan, RF.nan)] ∧
    (RF.nan, RF.nan) ≠ ((RF.num 0, RF.num 0) : RF × RF) := by
  constructor
  · have habs : cAbs ((0 : ℝ × ℝ)) = 0 := by
      simp [cAbs]
    simp [preprocessInner, npMaxList, Except.map, preprocessCore,
      normalizeWith, habs, fdiv]
  · intro h
    simp at h

/-- C4, amended.  With `m = np.max(np.abs(signal))`: when `m > 0`,
normalization divides every component by `m` and the maximum magnitude of
the normalized buffer is exactly `1`; when `m = 0` (all-zero non-degenerate
buffer), normalization is not skipped — every sample becomes `NaN/NaN`
via a `0.0/0.0` division, with no exception raised. -/
theorem c4_amended (s : List (ℝ × ℝ)) (m : ℝ)
    (hm : npMaxList (s.map cAbs) = Except.ok m) :
    (0 < m →
      normalizeWith s m = s.map (fun p => (RF.num (p.1 / m), RF.num (p.2 / m))) ∧
      npMaxList (s.map (fun p => cAbs (p.1 / m, p.2 / m))) = Except.ok 1) ∧
    (m = 0 → normalizeWith s m = s.map (fun _ => (RF.nan, RF.nan))) := by
  obtain ⟨hmem, hub⟩ := npMaxList_ok_spec hm
  constructor
  · intro hpos
    constructor
    · unfold normalizeWith
      refine List.map_congr_left ?_
      intro p _
      simp [fdiv, ne_of_gt hpos]
    · have hmap : s.map (fun p => cAbs (p.1 / m, p.2 / m)) =
          (s.map cAbs).map (fun x => x / m) := by
        rw [List.map_map]
        exact List.map_congr_left (fun p _ => cAbs_div p m hpos)
      rw [hmap]
      cases hl : s.map cAbs with
      | nil => rw [hl] at hm; simp [npMaxList] at hm
      | cons x xs =>
        rw [hl] at hm
        simp only [npMaxList] at hm ⊢
        injection hm with h2
        simp only [List.map_cons]
        rw [foldl_max_map_div xs x m hpos, h2, div_self (ne_of_gt hpos)]
  · intro hzero
    subst hzero
    unfold normalizeWith
    refine List.map_congr_left ?_
    intro p hp
    have habs : cAbs p = 0 :=
      le_antisymm (hub (cAbs p) (List.mem_map_of_mem cAbs hp)) (Real.sqrt_nonneg _)
    obtain ⟨h1, h2⟩ := cAbs_eq_zero habs
    simp [fdiv, h1, h2]

/-- C4, witness for `c4_amended` at the buffer `[(3, 4)]`, whose maximum
magnitude is `5`: normalization divides by `5` and renormalizes the peak
magnitude to `1`. -/
theorem c4_witness :
    normalizeWith [((3 : ℝ), 4)] 5 =
      [((3 : ℝ), 4)].map (fun p => (RF.num (p.1 / 5), RF.num (p.2 / 5))) ∧
    npMaxList ([((3 : ℝ), 4)].map (fun p => cAbs (p.1 / 5, p.2 / 5))) =
      Except.ok 1 := by
  have habs : cAbs ((3 : ℝ), 4) = 5 := by
    unfold cAbs
    rw [show ((3 : ℝ) ^ 2 + 4 ^ 2) = 5 ^ 2 by norm_num,
      Real.sqrt_sq (by norm_num : (0 : ℝ) ≤ 5)]
  have hmax : npMaxList ([((3 : ℝ), 4)].map cAbs) = Except.ok 5 := by
    simp [npMaxList, habs]
  exact (c4_amended [((3 : ℝ), 4)] 5 hmax).1 (by norm_num)

/-! ## Spectral analysis (`signal_processor_backup.py`, `analyze_signal`)

The analysis works on the complex sample buffer: power and amplitude are
means over magnitudes, the spectrum is the magnitude of the DFT
(`np.fft.fft`), the dominant frequency is `np.fft.fftfreq(N, 1/rate)` at
`np.argmax(spectrum)` (first maximum), and the SNR estimate is
`10 * log10(power / (np.var(data) + 1e-10))` where `np.var` of a complex
array is `mean(|x - mean(x)|^2)`.  On an empty buffer the FFT/argmax raise
and the `except` branch returns an empty result, modelled as `none`. -/

noncomputable section

/-- `np.mean` over a real list. -/
def npMeanR (l : List ℝ) : ℝ := l.sum / l.length

/-- `x.mean()` of a complex array. -/
def cMean (l : List ℂ) : ℂ := l.sum / (l.length : ℂ)

/-- `np.var` of a complex array: `mean(abs(x - x.mean())**2)`. -/
def npVarC (l : List ℂ) : ℝ :=
  npMeanR (l.map (fun z => Complex.abs (z - cMean l) ^ 2))

/-- Entry `k` of `np.fft.fft(x)`: `X_k = Σ_n x_n · exp(-2πi·k·n/N)`. -/
def dftCoeff (l : List ℂ) (k : ℕ) : ℂ :=
  ((List.range l.length).map (fun n =>
    l.getD n 0 * Complex.exp (-(2 * Real.pi * Complex.I) * k * n / l.length))).sum

/-- `spectrum = np.abs(fft_data)`. -/
def spectrumOf (l : List ℂ) : List ℝ :=
  (List.range l.length).map (fun k => Complex.abs (dftCoeff l k))

/-- `np.max` of a non-empty list as a value (`analyze_signal` only reaches
it with non-empty data; the `[]` case is an arbitrary placeholder). -/
def npMaxVal : List ℝ → ℝ
  | [] => 0
  | x :: xs => xs.foldl max x

/-- `np.min` of a non-empty list as a value. -/
def npMinVal : List ℝ → ℝ
  | [] => 0
  | x :: xs => xs.foldl min x

/-- `np.argmax`: the index of the first occurrence of the maximum. -/
def npArgmax : List ℝ → ℕ
  | [] => 0
  | [_] => 0
  | x :: y :: ys => if x < npMaxVal (y :: ys) then npArgmax (y :: ys) + 1 else 0

/-- `np.fft.fftfreq(n, d)` at index `k`: the integer label is `k` for
`k ≤ (n-1)//2` and `k - n` beyond, divided by `d * n`. -/
def npFftfreq (n : ℕ) (d : ℝ) (k : ℕ) : ℝ :=
  (if k ≤ (n - 1) / 2 then (k : ℝ) else (k : ℝ) - n) / (d * n)

/-- The analysis report of `analyze_signal`. -/
structure AnalysisResult where
  power : ℝ
  amplitude : ℝ
  main_frequency : ℝ
  snr_estimate : ℝ
  spectrum_peak : ℝ
  data_length : ℕ

/-- `SignalProcessor.analyze_signal`; the empty buffer makes the `try`
block raise and the function return an empty result (`none`). -/
def analyzeSignal (l : List ℂ) (sample_rate : ℚ) : Option AnalysisResult :=
  if l = [] then none
  else some
    { power := npMeanR (l.map (fun z => Complex.abs z ^ 2))
      amplitude := npMeanR (l.map (fun z => Complex.abs z))
      main_frequency :=
        npFftfreq l.length (1 / (sample_rate : ℝ)) (npArgmax (spectrumOf l))
      snr_estimate :=
        10 * Real.logb 10 (npMeanR (l.map (fun z => Complex.abs z ^ 2)) /
          (npVarC l + 1 / 10 ^ 10))
      spectrum_peak := npMaxVal (spectrumOf l)
      data_length := l.length }

/-- Population variance of a real list, as the claim states it
(the spec-side formula compared against `np.var`). -/
def popVarR (xs : List ℝ) : ℝ :=
  npMeanR (xs.map (fun x => (x - npMeanR xs) ^ 2))

end

/-- Folding `max` from an accumulated maximum. -/
theorem foldl_max_acc (ys : List ℝ) (a b : ℝ) :
    ys.foldl max (max a b) = max a (ys.foldl max b) := by
  induction ys generalizing b with
  | nil => rfl
  | cons z zs ih =>
    simp only [List.foldl_cons, max_assoc]
    exact ih (max b z)

/-- `np.max` of a two-or-more-element list splits off the head. -/
theorem npMaxVal_cons (x : ℝ) (t : List ℝ) (h : t ≠ []) :
    npMaxVal (x :: t) = max x (npMaxVal t) := by
  cases t with
  | nil => exact absurd rfl h
  | cons y ys =>
    show (y :: ys).foldl max x = max x (ys.foldl max y)
    simp only [List.foldl_cons]
    exact foldl_max_acc ys x y

/-- Every element is bounded by `np.max`. -/
theorem npMaxVal_ub {l : List ℝ} {z : ℝ} (hz : z ∈ l) : z ≤ npMaxVal l := by
  cases l with
  | nil => simp at hz
  | cons x xs =>
    rcases List.mem_cons.mp hz with h | h
    · exact h ▸ (le_foldl_max xs x).1
    · exact (le_foldl_max xs x).2 z h

/-- Specification of `np.argmax` on a non-empty list: the returned index is
in range, attains the maximum, and every earlier entry is strictly below
the maximum (ties resolve to the lowest index). -/
theorem npArgmax_spec (l : List ℝ) (h : l ≠ []) :
    npArgmax l < l.length ∧
    l.getD (npArgmax l) 0 = npMaxVal l ∧
    (∀ i, i < npArgmax l → l.getD i 0 < npMaxVal l) := by
  induction l with
  | nil => exact absurd rfl h
  | cons x t ih =>
    cases t with
    | nil =>
      refine ⟨by simp [npArgmax], rfl, ?_⟩
      intro i hi
      simp [npArgmax] at hi
    | cons y ys =>
      have hne : (y :: ys) ≠ [] := List.cons_ne_nil y ys
      obtain ⟨iha, ihb, ihc⟩ := ih hne
      have hsplit : npMaxVal (x :: y :: ys) = max x (npMaxVal (y :: ys)) :=
        npMaxVal_cons x (y :: ys) hne
      by_cases hx : x < npMaxVal (y :: ys)
      · have hdef : npArgmax (x :: y :: ys) = npArgmax (y :: ys) + 1 := by
          simp [npArgmax, hx]
        have hmax : npMaxVal (x :: y :: ys) = npMaxVal (y :: ys) := by
          rw [hsplit, max_eq_right hx.le]
        refine ⟨?_, ?_, ?_⟩
        · rw [hdef]
          simpa using Nat.succ_lt_succ iha
        · rw [hdef, hmax]
          simpa using ihb
        · intro i hi
          rw [hdef] at hi
          cases i with
          | zero => simpa [hmax] using hx
          | succ j =>
            rw [hmax]
            exact ihc j (Nat.lt_of_succ_lt_succ hi)
      · have hdef : npArgmax (x :: y :: ys) = 0 := by
          simp [npArgmax, hx]
        have hmax : npMaxVal (x :: y :: ys) = x := by
          rw [hsplit, max_eq_left (not_lt.mp hx)]
        refine ⟨by rw [hdef]; simp, by rw [hdef, hmax]; rfl, ?_⟩
        intro i hi
        rw [hdef] at hi
        simp at hi

/-- Sum of real parts of a complex list. -/
theorem list_sum_re (l : List ℂ) : l.sum.re = (l.map Complex.re).sum := by
  induction l with
  | nil => simp
  | cons z t ih => simp [ih]

/-- Sum of imaginary parts of a complex list. -/
theorem list_sum_im (l : List ℂ) : l.sum.im = (l.map Complex.im).sum := by
  induction l with
  | nil => simp
  | cons z t ih => simp [ih]

/-- The real part of the complex mean is the mean of the real parts. -/
theorem cMean_re (l : List ℂ) : (cMean l).re = npMeanR (l.map Complex.re) := by
  unfold cMean npMeanR
  rw [show ((l.length : ℂ)) = (((l.length : ℝ) : ℂ)) by push_cast; ring]
  rw [Complex.div_ofReal_re, list_sum_re]
  simp

/-- The imaginary part of the complex mean is the mean of the imaginary
parts. -/
theorem cMean_im (l : List ℂ) : (cMean l).im = npMeanR (l.map Complex.im) := by
  unfold cMean npMeanR
  rw [show ((l.length : ℂ)) = (((l.length : ℝ) : ℂ)) by push_cast; ring]
  rw [Complex.div_ofReal_im, list_sum_im]
  simp

/-- Sums of pointwise sums split. -/
theorem list_sum_map_add (l : List ℂ) (f g : ℂ → ℝ) :
    (l.map (fun z => f z + g z)).sum = (l.map f).sum + (l.map g).sum := by
  induction l with
  | nil => simp
  | cons z t ih => simp [ih]; ring

/-- `np.var` of a complex array decomposes as the population variance of
the real parts plus the population variance of the imaginary parts. -/
theorem npVarC_decomp (l : List ℂ) :
    npVarC l = popVarR (l.map Complex.re) + popVarR (l.map Complex.im) := by
  unfold npVarC popVarR
  have hpt : ∀ z : ℂ, Complex.abs (z - cMean l) ^ 2 =
      ((fun w => (w.re - (cMean l).re) ^ 2) z + (fun w => (w.im - (cMean l).im) ^ 2) z) := by
    intro z
    rw [Complex.sq_abs, Complex.normSq_apply]
    simp only [Complex.sub_re, Complex.sub_im]
    ring
  have hmap : l.map (fun z => Complex.abs (z - cMean l) ^ 2) =
      l.map (fun z => (z.re - (cMean l).re) ^ 2 + (z.im - (cMean l).im) ^ 2) :=
    List.map_congr_left (fun z _ => hpt z)
  unfold npMeanR
  rw [hmap, list_sum_map_add l (fun z => (z.re - (cMean l).re) ^ 2)
      (fun z => (z.im - (cMean l).im) ^ 2), add_div]
  congr 1
  · rw [List.map_map, cMean_re]
    simp [Function.comp_def, npMeanR]
  · rw [List.map_map, cMean_im]
    simp [Function.comp_def, npMeanR]

/-- `np.fft.fftfreq(N, 1/rate)` agrees with the claim's bin layout
`k·rate/N` for `2k < N` and `(k-N)·rate/N` for `2k ≥ N`. -/
theorem npFftfreq_eq (n : ℕ) (rate : ℚ) (k : ℕ) (hn : 0 < n) :
    npFftfreq n (1 / (rate : ℝ)) k =
      (if 2 * k < n then (k : ℝ) * rate / n else ((k : ℝ) - n) * rate / n) := by
  unfold npFftfreq
  have hcond : (k ≤ (n - 1) / 2) ↔ 2 * k < n := by omega
  rcases eq_or_ne ((rate : ℝ)) 0 with h0 | h0
  · rw [h0]
    simp
  · by_cases h2 : 2 * k < n
    · rw [if_pos (hcond.mpr h2), if_pos h2]
      have hnr : ((n : ℝ)) ≠ 0 := Nat.cast_ne_zero.mpr hn.ne'
      field_simp
    · rw [if_neg (fun hc => h2 (hcond.mp hc)), if_neg h2]
      have hnr : ((n : ℝ)) ≠ 0 := Nat.cast_ne_zero.mpr hn.ne'
      field_simp

/-! ## Claim C6 — analysis formulas -/

/-- C6.  For every non-empty sample buffer, `analyze_signal` succeeds and
returns `power = mean(|sample|²)`, `amplitude = mean(|sample|)`, a dominant
frequency equal to the FFT bin `k·rate/N` (resp. `(k−N)·rate/N`) at an index
that attains the spectrum maximum with every earlier bin strictly below it
(ties to the lowest index), and
`snr = 10·log10(power / (var_re + var_im + 1e-10))` with population
variances of the real and imaginary parts. -/
theorem c6_analyze (l : List ℂ) (rate : ℚ) (h : l ≠ []) :
    ∃ r, analyzeSignal l rate = some r ∧
      r.power = (l.map (fun z => Complex.abs z ^ 2)).sum / l.length ∧
      r.amplitude = (l.map (fun z => Complex.abs z)).sum / l.length ∧
      (∃ j, j < l.length ∧
        (spectrumOf l).getD j 0 = npMaxVal (spectrumOf l) ∧
        (∀ i, i < j → (spectrumOf l).getD i 0 < (spectrumOf l).getD j 0) ∧
        (∀ i, i < l.length → (spectrumOf l).getD i 0 ≤ (spectrumOf l).getD j 0) ∧
        r.main_frequency =
          (if 2 * j < l.length then (j : ℝ) * rate / l.length
           else ((j : ℝ) - l.length) * rate / l.length)) ∧
      r.snr_estimate =
        10 * Real.logb 10 (r.power /
          (popVarR (l.map Complex.re) + popVarR (l.map Complex.im) + 1 / 10 ^ 10)) ∧
      r.data_length = l.length := by
  have hlen : 0 < l.length := List.length_pos.mpr h
  have hspec_len : (spectrumOf l).length = l.length := by
    simp [spectrumOf]
  have hspec_ne : spectrumOf l ≠ [] := by
    intro hc
    rw [← List.length_eq_zero, hspec_len] at hc
    omega
  obtain ⟨ha, hb, hc⟩ := npArgmax_spec (spectrumOf l) hspec_ne
  rw [analyzeSignal, if_neg h]
  refine ⟨_, rfl, by simp [npMeanR], by simp [npMeanR],
    ⟨npArgmax (spectrumOf l), ?_, hb, ?_, ?_, ?_⟩, ?_, rfl⟩
  · rw [← hspec_len]; exact ha
  · intro i hi
    rw [hb]
    exact hc i hi
  · intro i hi
    rw [hb]
    refine npMaxVal_ub ?_
    have hi' : i < (spectrumOf l).length := by rw [hspec_len]; exact hi
    rw [List.getD_eq_getElem (spectrumOf l) 0 hi']
    exact List.getElem_mem hi'
  · show npFftfreq l.length (1 / (rate : ℝ)) (npArgmax (spectrumOf l)) = _
    exact npFftfreq_eq l.length rate (npArgmax (spectrumOf l)) hlen
  · show 10 * Real.logb 10 (npMeanR (l.map (fun z => Complex.abs z ^ 2)) /
        (npVarC l + 1 / 10 ^ 10)) = _
    rw [npVarC_decomp]

/-- C6, witness for `c6_analyze` at the one-sample buffer `[1]` with sample
rate `1`. -/
theorem c6_witness : (analyzeSignal [1] 1).isSome = true := by
  obtain ⟨r, hr, -⟩ := c6_analyze [1] 1 (by simp)
  rw [hr]
  rfl

/-! ## Claim C7 — per-channel statistics -/

/-- Dual of `le_foldl_max`: a `foldl min` is below its seed and every
element. -/
theorem foldl_min_le (xs : List ℝ) (a : ℝ) :
    xs.foldl min a ≤ a ∧ ∀ x ∈ xs, xs.foldl min a ≤ x := by
  induction xs generalizing a with
  | nil => simp
  | cons y ys ih =>
    simp only [List.foldl_cons]
    refine ⟨le_trans (ih (min a y)).1 (min_le_left a y), ?_⟩
    intro x hx
    rcases List.mem_cons.mp hx with h | h
    · subst h
      exact le_trans (ih (min a x)).1 (min_le_right a x)
    · exact (ih (min a y)).2 x h

/-- A `foldl min` is the seed or one of the list elements. -/
theorem foldl_min_mem (xs : List ℝ) (a : ℝ) :
    xs.foldl min a = a ∨ xs.foldl min a ∈ xs := by
  induction xs generalizing a with
  | nil => simp
  | cons y ys ih =>
    simp only [List.foldl_cons]
    rcases ih (min a y) with h | h
    · rcases min_choice a y with hm | hm <;>
        (rw [hm] at h ⊢; rw [h]; simp)
    · exact Or.inr (List.mem_cons_of_mem y h)

/-- `np.max` of a non-empty list is attained. -/
theorem npMaxVal_mem {l : List ℝ} (h : l ≠ []) : npMaxVal l ∈ l := by
  cases l with
  | nil => exact absurd rfl h
  | cons x xs =>
    rcases foldl_max_mem xs x with h' | h'
    · rw [show npMaxVal (x :: xs) = xs.foldl max x from rfl, h']
      exact List.mem_cons_self x xs
    · exact List.mem_cons_of_mem x h'

/-- `np.min` of a non-empty list is attained. -/
theorem npMinVal_mem {l : List ℝ} (h : l ≠ []) : npMinVal l ∈ l := by
  cases l with
  | nil => exact absurd rfl h
  | cons x xs =>
    rcases foldl_min_mem xs x with h' | h'
    · rw [show npMinVal (x :: xs) = xs.foldl min x from rfl, h']
      exact List.mem_cons_self x xs
    · exact List.mem_cons_of_mem x h'

/-- Every element is bounded below by `np.min`. -/
theorem npMinVal_lb {l : List ℝ} {z : ℝ} (hz : z ∈ l) : npMinVal l ≤ z := by
  cases l with
  | nil => simp at hz
  | cons x xs =>
    rcases List.mem_cons.mp hz with h | h
    · exact h ▸ (foldl_min_le xs x).1
    · exact (foldl_min_le xs x).2 z h

noncomputable section

/-- The elementwise `ℚ → ℝ` view of a rational column (NumPy float data). -/
def castList (xs : List ℚ) : List ℝ := xs.map (fun x : ℚ => (x : ℝ))

/-- `np.std`: the square root of the population variance. -/
def npStdR (xs : List ℝ) : ℝ :=
  Real.sqrt (npMeanR (xs.map (fun x => (x - npMeanR xs) ^ 2)))

/-- The `stats` dictionary of `SignalProcessor.process_iq_data`. -/
structure IqStats where
  i_mean : ℝ
  i_std : ℝ
  q_mean : ℝ
  q_std : ℝ
  i_max : ℝ
  i_min : ℝ

/-- The statistics block of `SignalProcessor.process_iq_data`, over the
post-split I and Q columns.  With zero data rows, `np.max` raises
`ValueError` («zero-size array to reduction operation») which propagates
out of `process_iq_data` — there is no `try` around it — so no value is
returned; this fatal raise is the modelled error. -/
def iqStatistics (tbl : List (ℚ × ℚ)) : Except Unit IqStats :=
  if splitData tbl = [] then Except.error ()
  else Except.ok
    { i_mean := npMeanR (castList (iCompsA tbl))
      i_std := npStdR (castList (iCompsA tbl))
      q_mean := npMeanR (castList (qCompsA tbl))
      q_std := npStdR (castList (qCompsA tbl))
      i_max := npMaxVal (castList (iCompsA tbl))
      i_min := npMinVal (castList (iCompsA tbl)) }

end

/-- The square of `np.std` is the population variance. -/
theorem npStdR_sq (xs : List ℝ) : npStdR xs ^ 2 = popVarR xs := by
  unfold npStdR popVarR
  refine Real.sq_sqrt ?_
  unfold npMeanR
  refine div_nonneg (List.sum_nonneg ?_) (Nat.cast_nonneg _)
  intro y hy
  obtain ⟨x, -, rfl⟩ := List.mem_map.mp hy
  positivity

/-- C7.  Statistics are the standard population mean / standard deviation /
min / max over the post-split I and Q columns: the mean is `sum/length`, the
squared standard deviation is the population variance, min and max are
attained bounds; on zero data rows the operation fails fatally instead of
returning a value; and on the I column `[1, 3, 5]` it yields `i_mean = 3`,
`i_min = 1`, `i_max = 5`. -/
theorem c7_statistics (tbl : List (ℚ × ℚ)) :
    (splitData tbl = [] → iqStatistics tbl = Except.error ()) ∧
    (splitData tbl ≠ [] → ∃ st, iqStatistics tbl = Except.ok st ∧
      st.i_mean = (castList (iCompsA tbl)).sum /
        (castList (iCompsA tbl)).length ∧
      st.i_std ^ 2 = popVarR (castList (iCompsA tbl)) ∧
      st.q_mean = (castList (qCompsA tbl)).sum /
        (castList (qCompsA tbl)).length ∧
      st.q_std ^ 2 = popVarR (castList (qCompsA tbl)) ∧
      st.i_max ∈ castList (iCompsA tbl) ∧
      (∀ x ∈ castList (iCompsA tbl), x ≤ st.i_max) ∧
      st.i_min ∈ castList (iCompsA tbl) ∧
      (∀ x ∈ castList (iCompsA tbl), st.i_min ≤ x)) ∧
    (∃ st, iqStatistics [((1 : ℚ), 2), (3, 4), (5, 6)] = Except.ok st ∧
      st.i_mean = 3 ∧ st.i_min = 1 ∧ st.i_max = 5) := by
  refine ⟨?_, ?_, ?_⟩
  · intro h
    simp [iqStatistics, h]
  · intro h
    have hne : castList (iCompsA tbl) ≠ [] := by
      intro hc
      apply h
      have h1 : iCompsA tbl = [] := by simpa [castList] using hc
      have h2 : (splitData tbl).map Prod.fst = [] := by
        simpa [iCompsA, iCol] using h1
      exact List.map_eq_nil_iff.mp h2
    rw [iqStatistics, if_neg h]
    refine ⟨_, rfl, rfl, npStdR_sq _, rfl, npStdR_sq _, npMaxVal_mem hne,
      fun x hx => npMaxVal_ub hx, npMinVal_mem hne, fun x hx => npMinVal_lb hx⟩
  · have hsplit : splitData [((1 : ℚ), 2), (3, 4), (5, 6)] =
        [((1 : ℚ), 2), (3, 4), (5, 6)] := by
      norm_num [splitData, annotRowOf]
    have hcomps : castList (iCompsA [((1 : ℚ), 2), (3, 4), (5, 6)]) =
        [(1 : ℝ), 3, 5] := by
      norm_num [castList, iCompsA, iCol, hsplit]
    refine ⟨_, by rw [iqStatistics, if_neg (by rw [hsplit]; simp)], ?_, ?_, ?_⟩
    · show npMeanR (castList (iCompsA [((1 : ℚ), 2), (3, 4), (5, 6)])) = 3
      rw [hcomps]
      norm_num [npMeanR]
    · show npMinVal (castList (iCompsA [((1 : ℚ), 2), (3, 4), (5, 6)])) = 1
      rw [hcomps]
      norm_num [npMinVal, min_def]
    · show npMaxVal (castList (iCompsA [((1 : ℚ), 2), (3, 4), (5, 6)])) = 5
      rw [hcomps]
      norm_num [npMaxVal, max_def]

/-- C7, witness for `c7_statistics` at the empty table: zero data rows make
the statistics fail rather than return a value. -/
theorem c7_witness : iqStatistics [] = Except.error () :=
  (c7_statistics []).1 rfl
